import Mathlib

set_option autoImplicit false

/-!
Verification of the gRPC Prometheus interceptor proof-of-concept
(`server.go`, the `PROOF OF CONCEPT FOR PROMETHEUS METRICS` section).

The Go code is embedded shallowly:

* Go `map[string]string` values become `GoMap`, association lists whose
  update operation replaces an existing binding in place (so keys stay
  unique, as in a Go map);
* the Prometheus `CounterVec` / `HistogramVec` become association lists
  keyed by the label-value tuple, with children created lazily on first
  `WithLabelValues` access, mirroring the Prometheus client;
* `time.Now` readings are passed in explicitly (`startTime`, `now`);
* the interceptor returns, besides the handler result and the updated
  registry state, the ordered list of events its body performs, so that
  the temporal claims about one call become statements about that trace.
-/

namespace GrpcProm

/-- Go map from string to string, modelled as an association list with
unique keys: assignment replaces the binding in place when the key is
present and appends otherwise. -/
abbrev GoMap := List (String × String)

namespace GoMap

/-- Go map assignment m[k] = v. -/
def set : GoMap → String → String → GoMap
  | [], k, v => [(k, v)]
  | p :: rest, k, v => if p.1 = k then (k, v) :: rest else p :: set rest k v

/-- Go map lookup with the ok flag, m[k] returning (v, ok). -/
def get? : GoMap → String → Option String
  | [], _ => none
  | p :: rest, k => if p.1 = k then some p.2 else get? rest k

/-- Go map read m[k] without the ok flag: the zero value of string is
returned when the key is missing. -/
def getD (m : GoMap) (k : String) : String :=
  (m.get? k).getD ""

/-- The keys of the map, in representation order. -/
def keys (m : GoMap) : List String :=
  m.map Prod.fst

theorem get?_set_self (m : GoMap) (k v : String) :
    (m.set k v).get? k = some v := by
  induction m with
  | nil => simp [set, get?]
  | cons p rest ih =>
    by_cases h : p.1 = k
    · simp [set, get?, h]
    · simp [set, get?, h, ih]

theorem get?_set_ne (m : GoMap) (k v k' : String) (h : k' ≠ k) :
    (m.set k v).get? k' = m.get? k' := by
  induction m with
  | nil => simp [set, get?, Ne.symm h]
  | cons p rest ih =>
    by_cases hp : p.1 = k
    · subst hp
      simp [set, get?, Ne.symm h]
    · by_cases hp' : p.1 = k'
      · simp [set, get?, hp, hp', h]
      · simp [set, get?, hp, hp', ih]

theorem get?_eq_none_of_not_mem_keys (m : GoMap) (k : String) (h : k ∉ m.keys) :
    m.get? k = none := by
  induction m with
  | nil => rfl
  | cons p rest ih =>
    simp only [keys, List.map_cons, List.mem_cons, not_or] at h
    simp [get?, Ne.symm h.1, ih (by simpa [keys] using h.2)]

theorem isSome_get?_of_mem_keys (m : GoMap) (k : String) (h : k ∈ m.keys) :
    (m.get? k).isSome := by
  induction m with
  | nil => simp [keys] at h
  | cons p rest ih =>
    by_cases hp : p.1 = k
    · simp [get?, hp]
    · simp only [keys, List.map_cons, List.mem_cons] at h
      rcases h with h | h
      · exact absurd h.symm hp
      · simp [get?, hp, ih (by simpa [keys] using h)]

end GoMap

/-! ### splitMethodName -/

/-- strings.TrimPrefix(s, "/"): removes one leading slash when present. -/
def trimLeadingSlash : List Char → List Char
  | '/' :: rest => rest
  | cs => cs

/-- strings.Index(s, "/") followed by the two slices s[:i] and s[i+1:]:
returns the parts before and after the first slash, or none when the
string has no slash. -/
def splitAtFirstSlash : List Char → Option (List Char × List Char)
  | [] => none
  | c :: rest =>
    if c = '/' then some ([], rest)
    else
      match splitAtFirstSlash rest with
      | some pq => some (c :: pq.1, pq.2)
      | none => none

/-- splitMethodName from server.go: strip one leading slash, then split at
the first remaining slash into (service, method); when no slash remains
both components are "unknown". -/
def splitMethodName (fullMethodName : String) : String × String :=
  match splitAtFirstSlash (trimLeadingSlash fullMethodName.toList) with
  | some pq => (String.mk pq.1, String.mk pq.2)
  | none => ("unknown", "unknown")

theorem splitAtFirstSlash_append (a b : List Char) (ha : ∀ c ∈ a, c ≠ '/') :
    splitAtFirstSlash (a ++ '/' :: b) = some (a, b) := by
  induction a with
  | nil => simp [splitAtFirstSlash]
  | cons c rest ih =>
    have hc : c ≠ '/' := ha c (List.mem_cons_self c rest)
    have hrest := ih fun x hx => ha x (List.mem_cons_of_mem c hx)
    simp [splitAtFirstSlash, hc, List.append_eq, hrest]

theorem splitAtFirstSlash_eq_none (cs : List Char) (h : ∀ c ∈ cs, c ≠ '/') :
    splitAtFirstSlash cs = none := by
  induction cs with
  | nil => rfl
  | cons c rest ih =>
    have hc : c ≠ '/' := h c (List.mem_cons_self c rest)
    have hrest := ih fun x hx => h x (List.mem_cons_of_mem c hx)
    simp [splitAtFirstSlash, hc, hrest]

theorem trimLeadingSlash_of_no_slash (cs : List Char) (h : ∀ c ∈ cs, c ≠ '/') :
    trimLeadingSlash cs = cs := by
  cases cs with
  | nil => rfl
  | cons c rest =>
    have hc : c ≠ '/' := h c (List.mem_cons_self c rest)
    cases c with
    | mk val valid =>
      cases rest <;> · rw [trimLeadingSlash.eq_def]; split <;> simp_all

theorem trimLeadingSlash_cons_of_ne (c : Char) (rest : List Char) (hc : c ≠ '/') :
    trimLeadingSlash (c :: rest) = c :: rest := by
  rw [trimLeadingSlash.eq_def]
  split <;> simp_all

theorem exists_first_slash_split (l : List Char) (h : ¬ ∀ c ∈ l, c ≠ '/') :
    ∃ p q, (∀ c ∈ p, c ≠ '/') ∧ l = p ++ '/' :: q := by
  induction l with
  | nil => exact absurd (fun c hc => absurd hc (List.not_mem_nil c)) h
  | cons c rest ih =>
    by_cases hc : c = '/'
    · exact ⟨[], rest, by simp, by rw [hc]; rfl⟩
    · have hrest : ¬ ∀ x ∈ rest, x ≠ '/' := by
        intro hall
        refine h fun x hx => ?_
        rcases List.mem_cons.mp hx with h1 | h2
        · rw [h1]; exact hc
        · exact hall x h2
      obtain ⟨p, q, hp, hl⟩ := ih hrest
      refine ⟨c :: p, q, fun x hx => ?_, by rw [List.cons_append, hl]⟩
      rcases List.mem_cons.mp hx with h1 | h2
      · rw [h1]; exact hc
      · exact hp x h2

/-! ### Data model: extractor, registry, reporter -/

/-- The identification the framework passes to the interceptor
(grpc.UnaryServerInfo); only FullMethod is read by the code. -/
structure UnaryServerInfo where
  FullMethod : String

/-- A handler failure as seen through the external grpcstatus package
boundary: grpcstatus.FromError yields a status that carries a canonical
code for every non-nil error. Only the code's string rendering is read. -/
structure GrpcError where
  code : String
deriving DecidableEq

/-- Models the boundary st.Code().String() after grpcstatus.FromError(err):
a nil error classifies as the success code OK, a non-nil error as its own
categorized code. -/
def statusCodeString : Option GrpcError → String
  | none => "OK"
  | some e => e.code

/-- The LabelExtractor interface: the declared extra label names, fixed at
construction, and the per-call mapping from the call context. -/
structure LabelExtractor (Ctx : Type) where
  LabelNames : List String
  Labels : Ctx → GoMap

/-- DefaultLabelExtractor: declares no names; its Labels loop over the
empty name list leaves the result map empty. -/
def DefaultLabelExtractor (Ctx : Type) : LabelExtractor Ctx where
  LabelNames := []
  Labels := fun _ => ([] : List String).foldl (fun res l => res.set l "default") []

/-- CustomLabelExtractor from server.go: declares only userName but its
per-call mapping also carries the undeclared key appVersion. -/
def CustomLabelExtractor (Ctx : Type) : LabelExtractor Ctx where
  LabelNames := ["userName"]
  Labels := fun _ => [("userName", "jordi"), ("appVersion", "v0.5")]

/-- A Label Extractor test input whose per-call mapping supplies a value
for the base name grpc_status. -/
def statusOverrideExtractor : LabelExtractor Unit where
  LabelNames := []
  Labels := fun _ => [("grpc_status", "HACK")]

/-- A Prometheus CounterVec: one 64-bit count per label-value tuple,
children existing only once created. -/
abbrev CounterVec := List (List String × Nat)

/-- A Prometheus HistogramVec: per label-value tuple, the multiset of
observed values, kept as the list of observations in arrival order (bucket
counts, sum and count all derive from it). -/
abbrev HistogramVec := List (List String × List ℚ)

/-- CounterVec.WithLabelValues(tuple).Inc(): the child for the tuple is
created at count 1 on first access, otherwise its count increments. -/
def counterInc : CounterVec → List String → CounterVec
  | [], t => [(t, 1)]
  | s :: rest, t => if s.1 = t then (s.1, s.2 + 1) :: rest else s :: counterInc rest t

/-- HistogramVec.WithLabelValues(tuple).Observe(x): the child for the tuple
is created on first access, and x joins its observations. -/
def histogramObserve : HistogramVec → List String → ℚ → HistogramVec
  | [], t, x => [(t, [x])]
  | s :: rest, t, x => if s.1 = t then (s.1, s.2 ++ [x]) :: rest else s :: histogramObserve rest t x

/-- Lookup of a series by its label-value tuple in a metric vector. -/
def seriesGet? {α : Type} : List (List String × α) → List String → Option α
  | [], _ => none
  | s :: rest, t => if s.1 = t then some s.2 else seriesGet? rest t

/-- Sum of all counter series values, used to count increments. -/
def counterTotal (v : CounterVec) : Nat :=
  (v.map fun s => s.2).sum

/-- Total number of observations across all histogram series. -/
def histogramTotal (v : HistogramVec) : Nat :=
  (v.map fun s => s.2.length).sum

/-- The ServerMetrics registry: the declared label names and the two
metric vectors. -/
structure ServerMetrics where
  labels : List String
  serverHandledCounter : CounterVec
  serverHandledHistogram : HistogramVec

/-- NewServerMetrics: the full label set is the three base names followed
by the extractor's declared names; both vectors start with no children. -/
def NewServerMetrics {Ctx : Type} (labelExtractor : LabelExtractor Ctx) : ServerMetrics where
  labels := ["grpc_service", "grpc_method", "grpc_status"] ++ labelExtractor.LabelNames
  serverHandledCounter := []
  serverHandledHistogram := []

/-- ServerMetrics.Collect: the registry forwards exactly the children its
two vectors currently hold to the scrape. -/
def ServerMetrics.Collect (m : ServerMetrics) : CounterVec × HistogramVec :=
  (m.serverHandledCounter, m.serverHandledHistogram)

/-- ServerMetrics.metricLabels: basic labels from splitMethodName, then the
extractor's per-call entries (overwriting), then "default" for every
declared name still unset. -/
def ServerMetrics.metricLabels {Ctx : Type} (m : ServerMetrics)
    (labelExtractor : LabelExtractor Ctx) (ctx : Ctx) (info : UnaryServerInfo) : GoMap :=
  let sm := splitMethodName info.FullMethod
  let labels : GoMap := [("grpc_service", sm.1), ("grpc_method", sm.2)]
  let labels := (labelExtractor.Labels ctx).foldl (fun acc kv => acc.set kv.1 kv.2) labels
  m.labels.foldl
    (fun acc labelName => if (acc.get? labelName).isSome then acc else acc.set labelName "default")
    labels

/-- The per-call serverReporter: the resolved label map and the start
time; the registry it points to is passed explicitly to Handled. -/
structure serverReporter where
  labels : GoMap
  startTime : ℚ

/-- newServerReporter captures the resolved labels and the current time. -/
def newServerReporter (labels : GoMap) (now : ℚ) : serverReporter where
  labels := labels
  startTime := now

/-- The loop in serverReporter.Handled that builds orderedLabels: one value
per declared name, appended in the declared order, reading the label map
(a missing name reads as the zero-value string). -/
def orderedLabels (metricsLabels : List String) (labels : GoMap) : List String :=
  metricsLabels.foldl (fun acc labelName => acc ++ [labels.getD labelName]) []

/-- serverReporter.Handled: builds the ordered value tuple, increments the
counter child and observes the elapsed seconds on the histogram child. -/
def serverReporter.Handled (r : serverReporter) (m : ServerMetrics) (now : ℚ) : ServerMetrics :=
  let ol := orderedLabels m.labels r.labels
  { m with
    serverHandledCounter := counterInc m.serverHandledCounter ol
    serverHandledHistogram := histogramObserve m.serverHandledHistogram ol (now - r.startTime) }

/-! ### The interceptor, with its event trace -/

/-- The observable events of one interceptor invocation, in the order the
closure body performs them. -/
inductive Event (Resp : Type) where
  | handlerReturned (resp : Resp) (err : Option GrpcError)
  | counterIncremented (tuple : List String)
  | histogramObserved (tuple : List String) (elapsedSeconds : ℚ)
  | returnedToFramework (resp : Resp) (err : Option GrpcError)
deriving DecidableEq

/-- True on the counter-increment event. -/
def Event.isCounterIncremented {Resp : Type} : Event Resp → Bool
  | .counterIncremented _ => true
  | _ => false

/-- True on the histogram-observation event. -/
def Event.isHistogramObserved {Resp : Type} : Event Resp → Bool
  | .histogramObserved _ _ => true
  | _ => false

/-- True on either commit event. -/
def Event.isCommit {Resp : Type} (e : Event Resp) : Bool :=
  e.isCounterIncremented || e.isHistogramObserved

/-- UnaryServerInterceptor, one invocation of the returned closure:
resolve metricLabels, create the reporter at startTime, run the handler on
the original context and request, classify the outcome into the
grpc_status label, commit through Handled at time now, and hand the
handler's pair back. The third component records the body's events in
statement order: the handler returning, then Handled's counter increment
and histogram observation, then the return to the framework. -/
def UnaryServerInterceptor {Ctx Req Resp : Type} (m : ServerMetrics)
    (labelExtractor : LabelExtractor Ctx) (ctx : Ctx) (req : Req) (info : UnaryServerInfo)
    (handler : Ctx → Req → Resp × Option GrpcError) (startTime now : ℚ) :
    (Resp × Option GrpcError) × ServerMetrics × List (Event Resp) :=
  let metricLabels := m.metricLabels labelExtractor ctx info
  let monitor := newServerReporter metricLabels startTime
  let hres := handler ctx req
  let st := statusCodeString hres.2
  let monitor : serverReporter := { monitor with labels := monitor.labels.set "grpc_status" st }
  let committed := orderedLabels m.labels monitor.labels
  (hres, monitor.Handled m now,
    [Event.handlerReturned hres.1 hres.2,
     Event.counterIncremented committed,
     Event.histogramObserved committed (now - monitor.startTime),
     Event.returnedToFramework hres.1 hres.2])

/-- A sequence of completed calls committed into the registry, one Handled
per call. -/
def runHandled (m : ServerMetrics) (calls : List (serverReporter × ℚ)) : ServerMetrics :=
  calls.foldl (fun acc c => c.1.Handled acc c.2) m

/-! ### Helper lemmas about the embedded operations -/

theorem orderedLabels_eq_map (names : List String) (mp : GoMap) :
    orderedLabels names mp = names.map fun n => mp.getD n := by
  suffices h : ∀ acc, names.foldl (fun acc labelName => acc ++ [mp.getD labelName]) acc
      = acc ++ names.map fun n => mp.getD n by
    simpa [orderedLabels] using h []
  induction names with
  | nil => simp
  | cons n rest ih => intro acc; simp [ih]

theorem seriesGet?_counterInc_self (v : CounterVec) (t : List String) :
    seriesGet? (counterInc v t) t = some ((seriesGet? v t).getD 0 + 1) := by
  induction v with
  | nil => simp [counterInc, seriesGet?]
  | cons s rest ih =>
    by_cases h : s.1 = t
    · simp [counterInc, seriesGet?, h]
    · simp [counterInc, seriesGet?, h, ih]

theorem seriesGet?_counterInc_ne (v : CounterVec) (t t' : List String) (h : t' ≠ t) :
    seriesGet? (counterInc v t) t' = seriesGet? v t' := by
  induction v with
  | nil => simp [counterInc, seriesGet?, Ne.symm h]
  | cons s rest ih =>
    by_cases hs : s.1 = t
    · subst hs
      simp [counterInc, seriesGet?, Ne.symm h]
    · by_cases hs' : s.1 = t'
      · simp [counterInc, seriesGet?, hs, hs', h]
      · simp [counterInc, seriesGet?, hs, hs', ih]

theorem counterTotal_counterInc (v : CounterVec) (t : List String) :
    counterTotal (counterInc v t) = counterTotal v + 1 := by
  induction v with
  | nil => simp [counterInc, counterTotal]
  | cons s rest ih =>
    by_cases h : s.1 = t
    · simp [counterInc, counterTotal, h]
      omega
    · simp only [counterInc, if_neg h]
      simp only [counterTotal, List.map_cons, List.sum_cons] at ih ⊢
      omega

theorem seriesGet?_histogramObserve_self (v : HistogramVec) (t : List String) (x : ℚ) :
    seriesGet? (histogramObserve v t x) t = some ((seriesGet? v t).getD [] ++ [x]) := by
  induction v with
  | nil => simp [histogramObserve, seriesGet?]
  | cons s rest ih =>
    by_cases h : s.1 = t
    · simp [histogramObserve, seriesGet?, h]
    · simp [histogramObserve, seriesGet?, h, ih]

theorem seriesGet?_histogramObserve_ne (v : HistogramVec) (t t' : List String) (x : ℚ)
    (h : t' ≠ t) :
    seriesGet? (histogramObserve v t x) t' = seriesGet? v t' := by
  induction v with
  | nil => simp [histogramObserve, seriesGet?, Ne.symm h]
  | cons s rest ih =>
    by_cases hs : s.1 = t
    · subst hs
      simp [histogramObserve, seriesGet?, Ne.symm h]
    · by_cases hs' : s.1 = t'
      · simp [histogramObserve, seriesGet?, hs, hs', h]
      · simp [histogramObserve, seriesGet?, hs, hs', ih]

theorem histogramTotal_histogramObserve (v : HistogramVec) (t : List String) (x : ℚ) :
    histogramTotal (histogramObserve v t x) = histogramTotal v + 1 := by
  induction v with
  | nil => simp [histogramObserve, histogramTotal]
  | cons s rest ih =>
    by_cases h : s.1 = t
    · simp [histogramObserve, histogramTotal, h]
      omega
    · simp only [histogramObserve, if_neg h]
      simp only [histogramTotal, List.map_cons, List.sum_cons] at ih ⊢
      omega

theorem get?_defaultFold (names : List String) (acc : GoMap) (k : String) :
    GoMap.get?
      (names.foldl
        (fun acc n => if (acc.get? n).isSome then acc else acc.set n "default") acc) k =
      match acc.get? k with
      | some v => some v
      | none => if k ∈ names then some "default" else none := by
  induction names generalizing acc with
  | nil =>
    simp only [List.foldl_nil]
    cases hx : acc.get? k <;> simp [hx]
  | cons n rest ih =>
    simp only [List.foldl_cons]
    by_cases hn : (acc.get? n).isSome
    · rw [if_pos hn, ih]
      by_cases hk : k = n
      · subst hk
        cases hx : acc.get? k with
        | some v => rfl
        | none => rw [hx] at hn; simp at hn
      · cases acc.get? k <;> simp [hk]
    · rw [if_neg hn, ih]
      by_cases hk : k = n
      · subst hk
        rw [GoMap.get?_set_self]
        cases hx : acc.get? k with
        | some v => rw [hx] at hn; simp at hn
        | none => simp
      · rw [GoMap.get?_set_ne _ _ _ _ hk]
        cases acc.get? k <;> simp [hk]

theorem get?_setFold_not_mem (ps : List (String × String)) (acc : GoMap) (k : String)
    (h : ∀ p ∈ ps, p.1 ≠ k) :
    GoMap.get? (ps.foldl (fun acc kv => acc.set kv.1 kv.2) acc) k = acc.get? k := by
  induction ps generalizing acc with
  | nil => rfl
  | cons p rest ih =>
    simp only [List.foldl_cons]
    rw [ih _ fun q hq => h q (List.mem_cons_of_mem p hq),
      GoMap.get?_set_ne _ _ _ _ (Ne.symm (h p (List.mem_cons_self p rest)))]

theorem get?_setFold_nodup (ps : List (String × String)) (acc : GoMap) (k : String)
    (h : (ps.map Prod.fst).Nodup) :
    GoMap.get? (ps.foldl (fun acc kv => acc.set kv.1 kv.2) acc) k =
      match GoMap.get? ps k with
      | some v => some v
      | none => acc.get? k := by
  induction ps generalizing acc with
  | nil => rfl
  | cons p rest ih =>
    simp only [List.map_cons, List.nodup_cons] at h
    simp only [List.foldl_cons]
    by_cases hk : p.1 = k
    · subst hk
      have hrest : ∀ q ∈ rest, q.1 ≠ p.1 := by
        intro q hq hq1
        exact h.1 (hq1 ▸ List.mem_map_of_mem Prod.fst hq)
      rw [get?_setFold_not_mem _ _ _ hrest, GoMap.get?_set_self]
      simp [GoMap.get?]
    · rw [ih _ h.2]
      cases hx : GoMap.get? rest k with
      | some v => simp [GoMap.get?, hk, hx]
      | none => simp [GoMap.get?, hk, hx, GoMap.get?_set_ne _ _ _ _ fun hkk => hk hkk.symm]

theorem get?_metricLabels {Ctx : Type} (m : ServerMetrics) (ext : LabelExtractor Ctx)
    (ctx : Ctx) (info : UnaryServerInfo) (name : String)
    (h : ((ext.Labels ctx).map Prod.fst).Nodup) :
    (m.metricLabels ext ctx info).get? name =
      match (ext.Labels ctx).get? name with
      | some v => some v
      | none =>
        if name = "grpc_service" then some (splitMethodName info.FullMethod).1
        else if name = "grpc_method" then some (splitMethodName info.FullMethod).2
        else if name ∈ m.labels then some "default" else none := by
  unfold ServerMetrics.metricLabels
  rw [get?_defaultFold, get?_setFold_nodup _ _ _ h]
  cases hx : (ext.Labels ctx).get? name with
  | some v => rfl
  | none =>
    by_cases h1 : name = "grpc_service"
    · subst h1
      simp [GoMap.get?]
    · by_cases h2 : name = "grpc_method"
      · subst h2
        simp [GoMap.get?]
      · simp [GoMap.get?, h1, h2, Ne.symm h1, Ne.symm h2]

theorem Handled_labels (r : serverReporter) (m : ServerMetrics) (now : ℚ) :
    (r.Handled m now).labels = m.labels := rfl

theorem get?_metricLabels_ext_some {Ctx : Type} (m : ServerMetrics)
    (ext : LabelExtractor Ctx) (ctx : Ctx) (info : UnaryServerInfo) (name v : String)
    (hnd : ((ext.Labels ctx).map Prod.fst).Nodup)
    (hv : (ext.Labels ctx).get? name = some v) :
    (m.metricLabels ext ctx info).get? name = some v := by
  rw [get?_metricLabels _ _ _ _ _ hnd, hv]

theorem get?_metricLabels_ext_none {Ctx : Type} (m : ServerMetrics)
    (ext : LabelExtractor Ctx) (ctx : Ctx) (info : UnaryServerInfo) (name : String)
    (hnd : ((ext.Labels ctx).map Prod.fst).Nodup)
    (hv : (ext.Labels ctx).get? name = none) :
    (m.metricLabels ext ctx info).get? name =
      if name = "grpc_service" then some (splitMethodName info.FullMethod).1
      else if name = "grpc_method" then some (splitMethodName info.FullMethod).2
      else if name ∈ m.labels then some "default" else none := by
  rw [get?_metricLabels _ _ _ _ _ hnd, hv]

theorem orderedLabels_congrOn (names : List String) (mp1 mp2 : GoMap)
    (h : ∀ n ∈ names, mp1.getD n = mp2.getD n) :
    orderedLabels names mp1 = orderedLabels names mp2 := by
  rw [orderedLabels_eq_map, orderedLabels_eq_map]
  exact List.map_congr_left h

theorem orderedLabels_getD (names : List String) (mp : GoMap) (i : Nat)
    (hi : i < names.length) :
    (orderedLabels names mp).getD i "" = mp.getD (names.getD i "") := by
  rw [orderedLabels_eq_map, List.getD_eq_getElem?_getD, List.getElem?_map,
    List.getElem?_eq_getElem (by simpa using hi), Option.map_some',
    Option.getD_some, List.getD_eq_getElem?_getD, List.getElem?_eq_getElem hi,
    Option.getD_some]

theorem getD_mem_of_lt {l : List String} {i : Nat} (hi : i < l.length) :
    l.getD i "" ∈ l := by
  rw [List.getD_eq_getElem?_getD, List.getElem?_eq_getElem hi]
  exact List.getElem_mem hi

/-! ### The claims -/

/-- C2: for every call the interceptor hands back exactly the
response/outcome pair the wrapped handler produced on the original
context and request — a failure is re-surfaced verbatim, never masked,
altered or retried — independent of the registry state, the extractor
and the clock readings. -/
theorem C2_handler_result_passthrough {Ctx Req Resp : Type} (m : ServerMetrics)
    (labelExtractor : LabelExtractor Ctx) (ctx : Ctx) (req : Req) (info : UnaryServerInfo)
    (handler : Ctx → Req → Resp × Option GrpcError) (startTime now : ℚ) :
    (UnaryServerInterceptor m labelExtractor ctx req info handler startTime now).1
      = handler ctx req := rfl

/-- C4: full characterization of splitMethodName over every method
identifier string. A string starting with one slash and holding a second
one splits at that second slash into (service, method); a string with a
slash but no leading slash splits at its first slash; a string with no
slash at all, and a string whose single leading slash leaves no slash
after stripping, both resolve to ("unknown", "unknown"). The fifth
conjunct shows these four families exhaust all strings, and the example
"/greet.Greeter/SayHello" resolves to ("greet.Greeter", "SayHello"). -/
theorem C4_splitMethodName_resolution :
    (∀ s a b : String, s.toList = '/' :: (a.toList ++ '/' :: b.toList) →
      (∀ c ∈ a.toList, c ≠ '/') → splitMethodName s = (a, b)) ∧
    (∀ s a b : String, s.toList = a.toList ++ '/' :: b.toList → a ≠ "" →
      (∀ c ∈ a.toList, c ≠ '/') → splitMethodName s = (a, b)) ∧
    (∀ s : String, (∀ c ∈ s.toList, c ≠ '/') →
      splitMethodName s = ("unknown", "unknown")) ∧
    (∀ s a : String, s.toList = '/' :: a.toList → (∀ c ∈ a.toList, c ≠ '/') →
      splitMethodName s = ("unknown", "unknown")) ∧
    (∀ s : String,
      (∃ a b : String, (∀ c ∈ a.toList, c ≠ '/') ∧
        (s.toList = '/' :: (a.toList ++ '/' :: b.toList) ∨
         (a ≠ "" ∧ s.toList = a.toList ++ '/' :: b.toList))) ∨
      (∀ c ∈ s.toList, c ≠ '/') ∨
      (∃ a : String, (∀ c ∈ a.toList, c ≠ '/') ∧ s.toList = '/' :: a.toList)) ∧
    splitMethodName "/greet.Greeter/SayHello" = ("greet.Greeter", "SayHello") := by
  refine ⟨?_, ?_, ?_, ?_, ?_, by decide⟩
  · intro s a b hl ha
    simp only [splitMethodName, hl, trimLeadingSlash, if_pos rfl,
      splitAtFirstSlash_append a.toList b.toList ha]
    rfl
  · intro s a b hl hne ha
    cases hcr : a.toList with
    | nil => exact absurd (String.ext (show a.data = "".data from hcr)) hne
    | cons c p' =>
      have hc : c ≠ '/' := ha c (by rw [hcr]; exact List.mem_cons_self c p')
      have ha' : ∀ x ∈ c :: p', x ≠ '/' := by rw [← hcr]; exact ha
      unfold splitMethodName
      rw [hl, hcr, List.cons_append, trimLeadingSlash_cons_of_ne c _ hc,
        ← List.cons_append, splitAtFirstSlash_append (c :: p') b.toList ha', ← hcr]
      rfl
  · intro s hs
    simp only [splitMethodName, trimLeadingSlash_of_no_slash s.toList hs,
      splitAtFirstSlash_eq_none s.toList hs]
  · intro s a hl ha
    simp only [splitMethodName, hl, trimLeadingSlash, if_pos rfl,
      splitAtFirstSlash_eq_none a.toList ha]
  · intro s
    by_cases hs : ∀ c ∈ s.toList, c ≠ '/'
    · exact Or.inr (Or.inl hs)
    · obtain ⟨p, q, hp, hl⟩ := exists_first_slash_split s.toList hs
      cases p with
      | nil =>
        by_cases hq : ∀ c ∈ q, c ≠ '/'
        · exact Or.inr (Or.inr ⟨String.mk q, hq,
            show s.toList = '/' :: q by simpa using hl⟩)
        · obtain ⟨p2, q2, hp2, hl2⟩ := exists_first_slash_split q hq
          refine Or.inl ⟨String.mk p2, String.mk q2, hp2, Or.inl ?_⟩
          show s.toList = '/' :: (p2 ++ '/' :: q2)
          simp only [List.nil_append] at hl
          rw [hl, hl2]
      | cons c p' =>
        refine Or.inl ⟨String.mk (c :: p'), String.mk q, hp, Or.inr ⟨?_, hl⟩⟩
        intro hemp
        exact absurd (show (c :: p' : List Char) = [] from congrArg String.data hemp)
          (by simp)

/-- Witness for C4 at one concrete identifier of each input family. -/
theorem C4_splitMethodName_resolution_witness :
    splitMethodName "/greet.Greeter/SayHello" = ("greet.Greeter", "SayHello") ∧
    splitMethodName "a.B/C" = ("a.B", "C") ∧
    splitMethodName "localcall" = ("unknown", "unknown") ∧
    splitMethodName "/abc" = ("unknown", "unknown") :=
  ⟨C4_splitMethodName_resolution.1 "/greet.Greeter/SayHello" "greet.Greeter" "SayHello"
      (by decide) (by decide),
   C4_splitMethodName_resolution.2.1 "a.B/C" "a.B" "C" (by decide) (by decide) (by decide),
   C4_splitMethodName_resolution.2.2.1 "localcall" (by decide),
   C4_splitMethodName_resolution.2.2.2.1 "/abc" "abc" (by decide) (by decide)⟩

/-- C6: the registry's declared label set is the three base names followed,
in order, by the extractor's declared names, so two registries built from
extractors declaring the same names agree on the label set. -/
theorem C6_label_set_construction :
    (∀ (Ctx : Type) (labelExtractor : LabelExtractor Ctx),
      (NewServerMetrics labelExtractor).labels
        = ["grpc_service", "grpc_method", "grpc_status"] ++ labelExtractor.LabelNames) ∧
    (∀ (Ctx1 Ctx2 : Type) (ext1 : LabelExtractor Ctx1) (ext2 : LabelExtractor Ctx2),
      ext1.LabelNames = ext2.LabelNames →
      (NewServerMetrics ext1).labels = (NewServerMetrics ext2).labels) := by
  refine ⟨fun Ctx labelExtractor => rfl, fun Ctx1 Ctx2 ext1 ext2 h => ?_⟩
  simp [NewServerMetrics, h]

/-- Witness for C6: the source's custom extractor, constructed twice. -/
theorem C6_label_set_construction_witness :
    (NewServerMetrics (CustomLabelExtractor Unit)).labels
      = ["grpc_service", "grpc_method", "grpc_status"]
          ++ (CustomLabelExtractor Unit).LabelNames ∧
    (NewServerMetrics (CustomLabelExtractor Unit)).labels
      = (NewServerMetrics (CustomLabelExtractor PUnit)).labels :=
  ⟨C6_label_set_construction.1 Unit (CustomLabelExtractor Unit),
   C6_label_set_construction.2 Unit PUnit (CustomLabelExtractor Unit)
     (CustomLabelExtractor PUnit) rfl⟩

/-- C1: in one wrapped call whose handler returns, the interceptor's event
trace holds exactly one counter increment and exactly one histogram
observation; both commits sit strictly between the handler's return and
the return of the result to the framework; and across the whole registry
exactly one count and one observation are added, whether the handler
succeeded or failed. -/
theorem C1_exactly_one_observation {Ctx Req Resp : Type} (m : ServerMetrics)
    (labelExtractor : LabelExtractor Ctx) (ctx : Ctx) (req : Req) (info : UnaryServerInfo)
    (handler : Ctx → Req → Resp × Option GrpcError) (startTime now : ℚ) :
    ((UnaryServerInterceptor m labelExtractor ctx req info handler startTime now).2.2.countP
        Event.isCounterIncremented = 1) ∧
    ((UnaryServerInterceptor m labelExtractor ctx req info handler startTime now).2.2.countP
        Event.isHistogramObserved = 1) ∧
    (∃ tuple elapsed,
      (UnaryServerInterceptor m labelExtractor ctx req info handler startTime now).2.2 =
        [Event.handlerReturned (handler ctx req).1 (handler ctx req).2,
         Event.counterIncremented tuple,
         Event.histogramObserved tuple elapsed,
         Event.returnedToFramework (handler ctx req).1 (handler ctx req).2]) ∧
    counterTotal (UnaryServerInterceptor m labelExtractor ctx req info handler
        startTime now).2.1.serverHandledCounter
      = counterTotal m.serverHandledCounter + 1 ∧
    histogramTotal (UnaryServerInterceptor m labelExtractor ctx req info handler
        startTime now).2.1.serverHandledHistogram
      = histogramTotal m.serverHandledHistogram + 1 := by
  refine ⟨rfl, rfl, ⟨_, _, rfl⟩, ?_, ?_⟩
  · exact counterTotal_counterInc m.serverHandledCounter _
  · exact histogramTotal_histogramObserve m.serverHandledHistogram _ _

/-- C3: every counter-commit of one interceptor invocation carries a tuple
of the declared arity whose entry at each position declared grpc_status is
the canonical classification of the handler's outcome — OK on success,
the error's categorized code on failure — whatever value the status label
held before the handler ran. -/
theorem C3_status_label_classification {Ctx Req Resp : Type} (m : ServerMetrics)
    (labelExtractor : LabelExtractor Ctx) (ctx : Ctx) (req : Req) (info : UnaryServerInfo)
    (handler : Ctx → Req → Resp × Option GrpcError) (startTime now : ℚ)
    (tuple : List String)
    (ht : Event.counterIncremented tuple
        ∈ (UnaryServerInterceptor m labelExtractor ctx req info handler startTime now).2.2) :
    tuple.length = m.labels.length ∧
    ∀ i, i < m.labels.length → m.labels.getD i "" = "grpc_status" →
      tuple.getD i "" = statusCodeString (handler ctx req).2 := by
  have htup : tuple = orderedLabels m.labels
      ((m.metricLabels labelExtractor ctx info).set "grpc_status"
        (statusCodeString (handler ctx req).2)) := by
    simp only [UnaryServerInterceptor, List.mem_cons, List.not_mem_nil, or_false] at ht
    rcases ht with h | h | h | h <;> first
      | (cases h; rfl)
      | (exact absurd h (by simp))
  subst htup
  rw [orderedLabels_eq_map]
  refine ⟨List.length_map _ _, fun i hi hname => ?_⟩
  rw [List.getD_eq_getElem?_getD, List.getElem?_map,
    List.getElem?_eq_getElem (by simpa using hi), Option.map_some']
  have hni : m.labels[i] = "grpc_status" := by
    rw [List.getD_eq_getElem?_getD, List.getElem?_eq_getElem hi] at hname
    simpa using hname
  simp [hni, GoMap.getD, GoMap.get?_set_self]

/-- Witness for C3: a handler failing with the categorized code Internal,
observed once from a fresh registry; position 2 of the committed tuple is
declared grpc_status and carries Internal. -/
theorem C3_status_label_classification_witness :
    (Event.counterIncremented ["a.B", "C", "Internal"]
        ∈ (UnaryServerInterceptor (NewServerMetrics (DefaultLabelExtractor Unit))
            (DefaultLabelExtractor Unit) () () ⟨"/a.B/C"⟩
            (fun _ _ => ((), some ⟨"Internal"⟩)) 0 0).2.2) ∧
    (["a.B", "C", "Internal"] : List String).getD 2 ""
      = statusCodeString (some ⟨"Internal"⟩) :=
  ⟨by decide,
   (C3_status_label_classification (NewServerMetrics (DefaultLabelExtractor Unit))
      (DefaultLabelExtractor Unit) () () ⟨"/a.B/C"⟩
      (fun _ _ => ((), some ⟨"Internal"⟩)) 0 0 ["a.B", "C", "Internal"]
      (by decide)).2 2 (by decide) (by decide)⟩

/-- C5: the label map resolved before the handler runs carries a value for
every declared name, and a declared name the extractor's mapping omits
that is neither grpc_service nor grpc_method resolves to the sentinel
"default". -/
theorem C5_declared_names_always_resolved {Ctx : Type} (m : ServerMetrics)
    (labelExtractor : LabelExtractor Ctx) (ctx : Ctx) (info : UnaryServerInfo)
    (name : String) (hmem : name ∈ m.labels) :
    ((m.metricLabels labelExtractor ctx info).get? name).isSome ∧
    (name ∉ (labelExtractor.Labels ctx).keys → name ≠ "grpc_service" →
      name ≠ "grpc_method" →
      (m.metricLabels labelExtractor ctx info).get? name = some "default") := by
  constructor
  · unfold ServerMetrics.metricLabels
    rw [get?_defaultFold]
    cases hx : GoMap.get?
        ((labelExtractor.Labels ctx).foldl (fun acc kv => acc.set kv.1 kv.2)
          [("grpc_service", (splitMethodName info.FullMethod).1),
           ("grpc_method", (splitMethodName info.FullMethod).2)]) name with
    | some v => simp
    | none => simp [hmem]
  · intro h1 h2 h3
    unfold ServerMetrics.metricLabels
    rw [get?_defaultFold, get?_setFold_not_mem _ _ _
      (fun p hp hpk => h1 (by rw [← hpk]; exact List.mem_map_of_mem Prod.fst hp))]
    simp [GoMap.get?, Ne.symm h2, Ne.symm h3, hmem]

/-- Witness for C5: grpc_status is declared, the default extractor's
per-call mapping omits it, and it resolves to "default". -/
theorem C5_declared_names_always_resolved_witness :
    ("grpc_status" ∈ (NewServerMetrics (DefaultLabelExtractor Unit)).labels) ∧
    ((NewServerMetrics (DefaultLabelExtractor Unit)).metricLabels
        (DefaultLabelExtractor Unit) () ⟨"/a.B/C"⟩).get? "grpc_status"
      = some "default" :=
  ⟨by decide,
   (C5_declared_names_always_resolved (NewServerMetrics (DefaultLabelExtractor Unit))
      (DefaultLabelExtractor Unit) () ⟨"/a.B/C"⟩ "grpc_status"
      (by decide)).2 (by decide) (by decide) (by decide)⟩

/-- C7: the committed value tuple has one entry per declared name, the
entry at each position being the resolved value of the name declared at
that position; and Handled commits identically for label maps with equal
lookups, so the tuple never depends on an incidental map representation
or iteration order. -/
theorem C7_deterministic_value_order (names : List String) (mp : GoMap)
    (m : ServerMetrics) (r1 r2 : serverReporter) (now : ℚ) :
    (orderedLabels names mp).length = names.length ∧
    (∀ i, i < names.length →
      (orderedLabels names mp).getD i "" = mp.getD (names.getD i "")) ∧
    ((∀ k, r1.labels.get? k = r2.labels.get? k) → r1.startTime = r2.startTime →
      r1.Handled m now = r2.Handled m now) := by
  refine ⟨by rw [orderedLabels_eq_map]; exact List.length_map _ _, fun i hi => ?_, ?_⟩
  · rw [orderedLabels_eq_map, List.getD_eq_getElem?_getD, List.getElem?_map,
      List.getElem?_eq_getElem (by simpa using hi), Option.map_some',
      Option.getD_some, List.getD_eq_getElem?_getD, List.getElem?_eq_getElem hi,
      Option.getD_some]
  · intro hk hst
    have hmaps : orderedLabels m.labels r1.labels = orderedLabels m.labels r2.labels :=
      orderedLabels_congrOn _ _ _ fun n _ => by simp [GoMap.getD, hk n]
    simp [serverReporter.Handled, hmaps, hst]

/-- Witness for C7 at a concrete name list, map and reporter pair. -/
theorem C7_deterministic_value_order_witness :
    (orderedLabels ["grpc_service", "grpc_method"] [("grpc_method", "M")]).getD 1 ""
      = GoMap.getD [("grpc_method", "M")]
          ((["grpc_service", "grpc_method"] : List String).getD 1 "") ∧
    serverReporter.Handled ⟨[("x", "1")], 0⟩ (NewServerMetrics (DefaultLabelExtractor Unit)) 1
      = serverReporter.Handled ⟨[("x", "1")], 0⟩ (NewServerMetrics (DefaultLabelExtractor Unit)) 1 :=
  ⟨(C7_deterministic_value_order ["grpc_service", "grpc_method"] [("grpc_method", "M")]
      (NewServerMetrics (DefaultLabelExtractor Unit)) ⟨[("x", "1")], 0⟩ ⟨[("x", "1")], 0⟩ 1).2.1
      1 (by decide),
   (C7_deterministic_value_order ["grpc_service", "grpc_method"] [("grpc_method", "M")]
      (NewServerMetrics (DefaultLabelExtractor Unit)) ⟨[("x", "1")], 0⟩ ⟨[("x", "1")], 0⟩ 1).2.2
      (fun k => rfl) rfl⟩

/-- Any tuple no call of the sequence commits stays absent from both
vectors: one step preserves absence for every other tuple. -/
theorem seriesAbsent_runHandled (calls : List (serverReporter × ℚ)) (m : ServerMetrics)
    (t : List String)
    (hc : seriesGet? m.serverHandledCounter t = none)
    (hh : seriesGet? m.serverHandledHistogram t = none)
    (hall : ∀ c ∈ calls, orderedLabels m.labels c.1.labels ≠ t) :
    seriesGet? (runHandled m calls).serverHandledCounter t = none ∧
    seriesGet? (runHandled m calls).serverHandledHistogram t = none := by
  induction calls generalizing m with
  | nil => exact ⟨hc, hh⟩
  | cons c rest ih =>
    have hcne : orderedLabels m.labels c.1.labels ≠ t :=
      hall c (List.mem_cons_self c rest)
    refine ih (c.1.Handled m c.2) ?_ ?_ ?_
    · rw [show (c.1.Handled m c.2).serverHandledCounter
          = counterInc m.serverHandledCounter (orderedLabels m.labels c.1.labels) from rfl,
        seriesGet?_counterInc_ne _ _ _ (fun h => hcne h.symm)]
      exact hc
    · rw [show (c.1.Handled m c.2).serverHandledHistogram
          = histogramObserve m.serverHandledHistogram (orderedLabels m.labels c.1.labels)
              (c.2 - c.1.startTime) from rfl,
        seriesGet?_histogramObserve_ne _ _ _ _ (fun h => hcne h.symm)]
      exact hh
    · intro c' hc'
      rw [Handled_labels]
      exact hall c' (List.mem_cons_of_mem c hc')

/-- C8: from a fresh registry, a label tuple no completed call ever
committed is absent from both series lists Collect exposes — series are
created lazily on first observation, never zero-initialized. -/
theorem C8_collect_omits_unseen {Ctx : Type} (labelExtractor : LabelExtractor Ctx)
    (calls : List (serverReporter × ℚ)) (t : List String)
    (hall : ∀ c ∈ calls,
      orderedLabels (NewServerMetrics labelExtractor).labels c.1.labels ≠ t) :
    seriesGet? ((runHandled (NewServerMetrics labelExtractor) calls).Collect).1 t = none ∧
    seriesGet? ((runHandled (NewServerMetrics labelExtractor) calls).Collect).2 t = none :=
  seriesAbsent_runHandled calls (NewServerMetrics labelExtractor) t rfl rfl hall

/-- Witness for C8: one committed call, and a tuple it did not commit. -/
theorem C8_collect_omits_unseen_witness :
    seriesGet? ((runHandled (NewServerMetrics (DefaultLabelExtractor Unit))
        [(⟨[], 0⟩, 1)]).Collect).1 ["x"] = none ∧
    seriesGet? ((runHandled (NewServerMetrics (DefaultLabelExtractor Unit))
        [(⟨[], 0⟩, 1)]).Collect).2 ["x"] = none :=
  C8_collect_omits_unseen (DefaultLabelExtractor Unit) [(⟨[], 0⟩, 1)] ["x"] (by decide)

/-- C10 counterexample: an extractor-supplied entry for the declared name
grpc_status does not win. With the extractor mapping grpc_status to
"HACK" and a succeeding handler, the only committed series carries the
classified code OK, and no series with the extractor's value exists. -/
theorem C10_claimed_precedence_counterexample :
    (statusOverrideExtractor.Labels ()).get? "grpc_status" = some "HACK" ∧
    "grpc_status" ∈ (NewServerMetrics statusOverrideExtractor).labels ∧
    (UnaryServerInterceptor (NewServerMetrics statusOverrideExtractor)
        statusOverrideExtractor () () ⟨"/a.B/C"⟩
        (fun (_ : Unit) (_ : Unit) => (((), none) : Unit × Option GrpcError))
        0 0).2.1.serverHandledCounter
      = [(["a.B", "C", "OK"], 1)] ∧
    seriesGet? (UnaryServerInterceptor (NewServerMetrics statusOverrideExtractor)
        statusOverrideExtractor () () ⟨"/a.B/C"⟩
        (fun (_ : Unit) (_ : Unit) => (((), none) : Unit × Option GrpcError))
        0 0).2.1.serverHandledCounter ["a.B", "C", "HACK"] = none := by
  decide

/-- C10 amended: for a committed tuple, at every declared position whose
name is not grpc_status the value follows the precedence extractor entry
first (also overriding the derived grpc_service / grpc_method values),
then the derived base value, then the sentinel "default"; at positions
declared grpc_status the committed value is always the classified outcome
code; and per-call entries for names outside the declared label set never
affect the call's outputs. -/
theorem C10_amended_label_value_precedence {Ctx Req Resp : Type} (m : ServerMetrics)
    (ext : LabelExtractor Ctx) (ctx : Ctx) (req : Req) (info : UnaryServerInfo)
    (handler : Ctx → Req → Resp × Option GrpcError) (startTime now : ℚ)
    (tuple : List String)
    (hnd : ((ext.Labels ctx).map Prod.fst).Nodup)
    (ht : Event.counterIncremented tuple
        ∈ (UnaryServerInterceptor m ext ctx req info handler startTime now).2.2) :
    (∀ i, i < m.labels.length → m.labels.getD i "" ≠ "grpc_status" →
      ((∀ v, (ext.Labels ctx).get? (m.labels.getD i "") = some v →
          tuple.getD i "" = v) ∧
       ((ext.Labels ctx).get? (m.labels.getD i "") = none →
          m.labels.getD i "" = "grpc_service" →
          tuple.getD i "" = (splitMethodName info.FullMethod).1) ∧
       ((ext.Labels ctx).get? (m.labels.getD i "") = none →
          m.labels.getD i "" = "grpc_method" →
          tuple.getD i "" = (splitMethodName info.FullMethod).2) ∧
       ((ext.Labels ctx).get? (m.labels.getD i "") = none →
          m.labels.getD i "" ≠ "grpc_service" → m.labels.getD i "" ≠ "grpc_method" →
          tuple.getD i "" = "default"))) ∧
    (∀ i, i < m.labels.length → m.labels.getD i "" = "grpc_status" →
      tuple.getD i "" = statusCodeString (handler ctx req).2) ∧
    (∀ ext2 : LabelExtractor Ctx, ((ext2.Labels ctx).map Prod.fst).Nodup →
      (∀ n ∈ m.labels, (ext2.Labels ctx).get? n = (ext.Labels ctx).get? n) →
      UnaryServerInterceptor m ext2 ctx req info handler startTime now
        = UnaryServerInterceptor m ext ctx req info handler startTime now) := by
  have htup : tuple = orderedLabels m.labels
      ((m.metricLabels ext ctx info).set "grpc_status"
        (statusCodeString (handler ctx req).2)) := by
    simp only [UnaryServerInterceptor, List.mem_cons, List.not_mem_nil, or_false] at ht
    rcases ht with h | h | h | h <;> first
      | (cases h; rfl)
      | (exact absurd h (by simp))
  subst htup
  refine ⟨fun i hi hns => ?_, fun i hi hst => ?_, fun ext2 hnd2 hagree => ?_⟩
  · rw [orderedLabels_getD _ _ _ hi]
    unfold GoMap.getD
    rw [GoMap.get?_set_ne _ _ _ _ hns]
    refine ⟨fun v hv => ?_, fun hv hsvc => ?_, fun hv hmet => ?_, fun hv h1 h2 => ?_⟩
    · rw [get?_metricLabels_ext_some _ _ _ _ _ _ hnd hv]
      rfl
    · rw [get?_metricLabels_ext_none _ _ _ _ _ hnd hv, if_pos hsvc]
      rfl
    · rw [get?_metricLabels_ext_none _ _ _ _ _ hnd hv, if_neg (by rw [hmet]; decide),
        if_pos hmet]
      rfl
    · rw [get?_metricLabels_ext_none _ _ _ _ _ hnd hv, if_neg h1, if_neg h2,
        if_pos (getD_mem_of_lt hi)]
      rfl
  · rw [orderedLabels_getD _ _ _ hi]
    unfold GoMap.getD
    rw [hst, GoMap.get?_set_self]
    rfl
  · have hol : orderedLabels m.labels
        ((m.metricLabels ext2 ctx info).set "grpc_status"
          (statusCodeString (handler ctx req).2))
      = orderedLabels m.labels
        ((m.metricLabels ext ctx info).set "grpc_status"
          (statusCodeString (handler ctx req).2)) := by
      refine orderedLabels_congrOn _ _ _ fun n hn => ?_
      unfold GoMap.getD
      by_cases hns : n = "grpc_status"
      · subst hns
        rw [GoMap.get?_set_self, GoMap.get?_set_self]
      · rw [GoMap.get?_set_ne _ _ _ _ hns, GoMap.get?_set_ne _ _ _ _ hns,
          get?_metricLabels _ _ _ _ _ hnd2, get?_metricLabels _ _ _ _ _ hnd,
          hagree n hn]
    simp only [UnaryServerInterceptor, serverReporter.Handled, newServerReporter, hol]

/-- Witness for C10 amended: the source's custom extractor on a
succeeding call; the committed tuple takes the extractor's value jordi at
the userName position and OK at the grpc_status position. -/
theorem C10_amended_label_value_precedence_witness :
    (Event.counterIncremented ["a.B", "C", "OK", "jordi"]
        ∈ (UnaryServerInterceptor (NewServerMetrics (CustomLabelExtractor Unit))
            (CustomLabelExtractor Unit) () () ⟨"/a.B/C"⟩
            (fun (_ : Unit) (_ : Unit) => (((), none) : Unit × Option GrpcError))
            0 0).2.2) ∧
    (["a.B", "C", "OK", "jordi"] : List String).getD 3 "" = "jordi" ∧
    (["a.B", "C", "OK", "jordi"] : List String).getD 2 "" = statusCodeString none :=
  ⟨by decide,
   ((C10_amended_label_value_precedence (NewServerMetrics (CustomLabelExtractor Unit))
      (CustomLabelExtractor Unit) () () ⟨"/a.B/C"⟩
      (fun (_ : Unit) (_ : Unit) => (((), none) : Unit × Option GrpcError)) 0 0
      ["a.B", "C", "OK", "jordi"] (by decide) (by decide)).1 3 (by decide)
      (by decide)).1 "jordi" (by decide),
   (C10_amended_label_value_precedence (NewServerMetrics (CustomLabelExtractor Unit))
      (CustomLabelExtractor Unit) () () ⟨"/a.B/C"⟩
      (fun (_ : Unit) (_ : Unit) => (((), none) : Unit × Option GrpcError)) 0 0
      ["a.B", "C", "OK", "jordi"] (by decide) (by decide)).2.1 2 (by decide)
      (by decide)⟩

end GrpcProm
